import Mathlib

/-!
Verification of the configuration-registry core of `src/tox/config/sets.py`.

The registry (`ConfigSet`) keeps three Python dicts: `_defined` (every alias
string to its `ConfigDefinition`), `_keys` (insertion-ordered primary keys,
stored as a dict with `None` values), and `_alias` (every alias to its primary
key).  Python dicts preserve insertion order and an assignment to an existing
key updates the value in place, keeping its position; we model them as
association lists with exactly those semantics.
-/

/-- First value stored under `key`, mirroring Python `d[key]` lookup. -/
def dictFind? {α : Type} : List (String × α) → String → Option α
  | [], _ => none
  | (k, v) :: rest, key => if k = key then some v else dictFind? rest key

/-- Python `key in d`. -/
def dictContains {α : Type} (d : List (String × α)) (key : String) : Bool :=
  (dictFind? d key).isSome

/-- Python `d[key] = v`: update in place when present, append when absent. -/
def dictInsert {α : Type} (d : List (String × α)) (key : String) (v : α) :
    List (String × α) :=
  if dictContains d key then
    d.map (fun p => if p.1 = key then (key, v) else p)
  else
    d ++ [(key, v)]

/-- Modelled from the spec: a Loader (external collaborator, its class is not
part of the source file) exposes the set of keys found in its backing source
(`found_keys()`) and an optional reference to a parent loader; the audit in
`unused` compares loaders by object identity (`id(...)`), which we model by an
explicit identity handle `lid`, the parent reference being the parent's
handle. -/
structure Loader where
  lid : Nat
  parent : Option Nat
  foundKeysL : List String
  deriving DecidableEq

/-- `Section` of `tox.config.loader.section`: only its `name` is used here. -/
structure Section where
  name : String
  deriving DecidableEq

/-- State of `ConfigSet` (src/tox/config/sets.py, lines 36-44): `_conf` of
type `C`, `_section`, `_env_name`, `loaders`, and the three dicts `_defined`,
`_keys` (value type `None`, so only the ordered key list matters) and
`_alias`.  Definitions have abstract type `D`. -/
structure ConfigSet (C D : Type) where
  conf : C
  sec : Section
  envName : Option String
  loaders : List Loader
  defined : List (String × D)
  keys : List String
  aliasMap : List (String × String)

/-- A freshly-constructed set, before any `register_config` call ran. -/
def ConfigSet.init {C D : Type} (conf : C) (sec : Section)
    (envName : Option String) : ConfigSet C D :=
  { conf := conf, sec := sec, envName := envName, loaders := [],
    defined := [], keys := [], aliasMap := [] }

/-- `ConfigSet.name` property (line 167): the section's name. -/
def ConfigSet.name {C D : Type} (cs : ConfigSet C D) : String :=
  cs.sec.name

/-- Which `_on_duplicate_conf` override is in force: `base` is
`ConfigSet._on_duplicate_conf` (lines 105-108, also used by `EnvConfigSet`),
`core` is `CoreConfigSet._on_duplicate_conf` (lines 215-216). -/
inductive DupPolicy where
  | base
  | core
  deriving DecidableEq

/-- `_on_duplicate_conf(key, definition)`: under `base`, raise
`ValueError(f"config ... already defined")` when the new definition differs
from the earlier one; under `core`, do nothing. -/
def onDuplicateConf {D : Type} [DecidableEq D] (p : DupPolicy) (key : String)
    (earlier definition : D) : Except String Unit :=
  match p with
  | .base =>
      if definition = earlier then Except.ok ()
      else Except.error ("config " ++ key ++ " already defined")
  | .core => Except.ok ()

/-- `_keys[key] = None` : dict insertion with a `None` value, so an existing
key keeps its position and nothing changes. -/
def keysInsert (ks : List String) (key : String) : List String :=
  if ks.contains key then ks else ks ++ [key]

/-- `ConfigSet._add_conf` (lines 93-103).  `keys[0]` on an empty sequence
raises `IndexError`; when the primary key is already defined the duplicate
hook decides, otherwise the primary key is recorded and every alias is mapped
in `_alias` and `_defined`.  The (new) definition is returned either way. -/
def ConfigSet.addConf {C D : Type} [DecidableEq D] (p : DupPolicy)
    (cs : ConfigSet C D) (keys : List String) (definition : D) :
    Except String (ConfigSet C D × D) :=
  match keys with
  | [] => Except.error "IndexError"
  | key :: _ =>
    match dictFind? cs.defined key with
    | some earlier =>
        match onDuplicateConf p key earlier definition with
        | Except.error e => Except.error e
        | Except.ok () => Except.ok (cs, definition)
    | none =>
        Except.ok
          ({ cs with
              keys := keysInsert cs.keys key,
              aliasMap := keys.foldl (fun a item => dictInsert a item key)
                cs.aliasMap,
              defined := keys.foldl (fun d k => dictInsert d k definition)
                cs.defined },
           definition)

/-- One registration call viewed as a state transformer: a raised error leaves
the registry untouched (the `base` hook raises before any mutation). -/
def ConfigSet.step {C D : Type} [DecidableEq D] (p : DupPolicy)
    (cs : ConfigSet C D) (op : List String × D) : ConfigSet C D :=
  match cs.addConf p op.1 op.2 with
  | Except.ok (cs', _) => cs'
  | Except.error _ => cs

/-- A whole sequence of registration calls. -/
def ConfigSet.run {C D : Type} [DecidableEq D] (p : DupPolicy)
    (cs : ConfigSet C D) (ops : List (List String × D)) : ConfigSet C D :=
  ops.foldl (fun s op => s.step p op) cs

/-- `__contains__` (lines 137-144): membership in the `_alias` dict. -/
def ConfigSet.containsKey {C D : Type} (cs : ConfigSet C D)
    (item : String) : Bool :=
  dictContains cs.aliasMap item

/-- `primary_key` (lines 157-164): `self._alias[key]`, a `KeyError` when the
key was never declared. -/
def ConfigSet.primaryKey {C D : Type} (cs : ConfigSet C D) (key : String) :
    Except String String :=
  match dictFind? cs.aliasMap key with
  | some k => Except.ok k
  | none => Except.error ("KeyError: " ++ key)

/-- Modelled from the spec: the Resolution Context (`ConfigLoadArgs` of
`tox.config.of_type`, whose module is not part of the source file): the chain
of keys already being resolved in the current top-level lookup (empty at the
start of a fresh lookup), plus the owning set's name and environment name. -/
structure ConfigLoadArgs where
  chain : List String
  name : String
  envName : Option String
  deriving DecidableEq

/-- Building the context from `load`'s optional `chain` argument: a missing
chain is a fresh (empty) one. -/
def ConfigLoadArgs.make (chain : Option (List String)) (name : String)
    (envName : Option String) : ConfigLoadArgs :=
  { chain := chain.getD [], name := name, envName := envName }

/-- `ConfigSet.load` (lines 119-128): look the raw key up in `_defined` (a
`KeyError` when absent) and invoke the definition with the overall config,
this set's loaders and a context built from the chain, the section name and
the environment name.  `callDef` is the external Definition invocation
capability (spec section 6); the registry itself stores nothing. -/
def ConfigSet.load {C D V : Type}
    (callDef : D → C → List Loader → ConfigLoadArgs → V)
    (cs : ConfigSet C D) (item : String) (chain : Option (List String)) :
    Except String V :=
  match dictFind? cs.defined item with
  | none => Except.error ("KeyError: " ++ item)
  | some d =>
      Except.ok (callDef d cs.conf cs.loaders
        (ConfigLoadArgs.make chain cs.name cs.envName))

/-- Adding one element to a duplicate-free list modelling a Python set. -/
def insertAbsent (l : List String) (x : String) : List String :=
  if x ∈ l then l else l ++ [x]

/-- `ConfigSet.unused` (lines 146-155): union the found keys of every loader
whose identity is not some loader's parent, subtract every key of `_defined`,
and sort.  Python collects an unordered set and sorts it at the end; we keep a
duplicate-free list, whose sorted form is the same list. -/
def ConfigSet.unused {C D : Type} (cs : ConfigSet C D) : List String :=
  List.insertionSort (· ≤ ·)
    ((cs.loaders.foldl
        (fun acc ld =>
          if (cs.loaders.filterMap Loader.parent).contains ld.lid then acc
          else ld.foundKeysL.foldl insertAbsent acc) []).filter
      (fun k => !(dictContains cs.defined k)))

/-- Modelled from the spec: `ConfigConstantDefinition` of
`tox.config.of_type` (module not part of the source file): a constant
Definition carries its keys, description and the fixed value it always
returns, and definitions compare by those fields. -/
structure ConfigConstantDefinition (V : Type) where
  keys : List String
  desc : String
  value : V
  deriving DecidableEq

/-- `_make_keys` (lines 89-91): a single string becomes a one-element
sequence, a sequence is taken as is. -/
def makeKeys : Sum String (List String) → List String
  | Sum.inl s => [s]
  | Sum.inr l => l

/-- `add_constant` (lines 75-87): build a new constant definition from the
call's arguments and hand it to `_add_conf`. -/
def ConfigSet.addConstant {C V : Type} [DecidableEq V] (p : DupPolicy)
    (cs : ConfigSet C (ConfigConstantDefinition V))
    (keys : Sum String (List String)) (desc : String) (value : V) :
    Except String
      (ConfigSet C (ConfigConstantDefinition V) ×
        ConfigConstantDefinition V) :=
  let keys_ := makeKeys keys
  cs.addConf p keys_ (ConfigConstantDefinition.mk keys_ desc value)

/-- The primary keys of the registration calls that actually registered,
in call order: a call is counted exactly when its primary key was not yet
defined at the moment of the call. -/
def primariesOf {C D : Type} [DecidableEq D] (p : DupPolicy) :
    ConfigSet C D → List (List String × D) → List String
  | _, [] => []
  | cs, ([], d) :: rest => primariesOf p (cs.step p ([], d)) rest
  | cs, (k :: tl, d) :: rest =>
      if dictContains cs.defined k then
        primariesOf p (cs.step p (k :: tl, d)) rest
      else k :: primariesOf p (cs.step p (k :: tl, d)) rest

/-- Every alias string of the calls that actually registered (the duplicate
branch of `_add_conf` never touches `_alias`). -/
def acceptedAliases {C D : Type} [DecidableEq D] (p : DupPolicy) :
    ConfigSet C D → List (List String × D) → List String
  | _, [] => []
  | cs, ([], d) :: rest => acceptedAliases p (cs.step p ([], d)) rest
  | cs, (k :: tl, d) :: rest =>
      if dictContains cs.defined k then
        acceptedAliases p (cs.step p (k :: tl, d)) rest
      else (k :: tl) ++ acceptedAliases p (cs.step p (k :: tl, d)) rest

/-- Registration state invariant: every alias maps (in `_defined`) to the
definition of its primary key, and `_keys` is exactly the self-mapping
aliases, without duplicates. -/
def RegInv {C D : Type} (cs : ConfigSet C D) : Prop :=
  (∀ a k, dictFind? cs.aliasMap a = some k →
      ∃ d, dictFind? cs.defined a = some d ∧
        dictFind? cs.defined k = some d) ∧
  (∀ k, k ∈ cs.keys ↔ dictFind? cs.aliasMap k = some k) ∧
  cs.keys.Nodup

/-- A sequence of registration calls is safe when every call that registers
(primary key not yet defined) uses only aliases that are not yet defined
either; calls whose primary key is already present change nothing and are
always safe. -/
def SafeOps {C D : Type} [DecidableEq D] (p : DupPolicy) :
    ConfigSet C D → List (List String × D) → Bool
  | _, [] => true
  | cs, ([], d) :: rest => SafeOps p (cs.step p ([], d)) rest
  | cs, (k :: tl, d) :: rest =>
      (dictContains cs.defined k ||
        (k :: tl).all (fun a => !(dictContains cs.defined a))) &&
      SafeOps p (cs.step p (k :: tl, d)) rest

/-- Every recorded primary key has a definition. -/
def KeysDefined {C D : Type} (cs : ConfigSet C D) : Prop :=
  ∀ k ∈ cs.keys, dictContains cs.defined k = true

/-- All alias strings ever passed to a registration call, as claim C7 counts
them. -/
def aliasesPassed {D : Type} (ops : List (List String × D)) : List String :=
  (ops.map Prod.fst).flatten

/-- `pathlib.Path` values modelled as their string form; `/` joins with a
separator. -/
def pjoin (a b : String) : String := a ++ "/" ++ b

/-- Values the core configuration set produces: paths, and `EnvList`
(modelled as its ordered list of environment names). -/
inductive CoreValue where
  | path (s : String)
  | envs (l : List String)
  deriving DecidableEq

/-- The `Config` handle as the core set consults it: only `work_dir`, the
externally-supplied working-directory override read by
`work_dir_builder` (line 194). -/
structure CoreConf where
  work_dir : Option String
  deriving DecidableEq

/-- The definition objects registered by `CoreConfigSet.register_config`
(lines 183-213): a constant, or a dynamic definition whose default is a
plain value or one of the two closures of `register_config`
(`work_dir_builder`, and the `temp_dir` lambda). -/
inductive CoreDef where
  | const (keys : List String) (desc : String) (value : CoreValue)
  | dynVal (keys : List String) (desc : String) (default : CoreValue)
  | dynWorkDir (keys : List String) (desc : String)
  | dynTempDir (keys : List String) (desc : String)
  deriving DecidableEq

/-- Modelled from the spec: invoking a Definition (spec section 6; the
definition classes live outside the source file).  A constant always returns
its fixed value; with no loaders a dynamic definition falls back to its
default, a callable default being called with the overall config and the
environment name.  The two closures re-enter the registry for
`self["tox_root"]` (lines 194 and 205), which we bound with fuel; otherwise
this is `ConfigSet.load` (lines 119-128) with the invocation inlined. -/
def loadCore : Nat → ConfigSet CoreConf CoreDef → String →
    Except String CoreValue
  | 0, _, _ => Except.error "recursion limit"
  | fuel + 1, cs, item =>
    match dictFind? cs.defined item with
    | none => Except.error ("KeyError: " ++ item)
    | some (CoreDef.const _ _ v) => Except.ok v
    | some (CoreDef.dynVal _ _ v) => Except.ok v
    | some (CoreDef.dynWorkDir _ _) =>
        match cs.conf.work_dir with
        | some w => Except.ok (CoreValue.path (pjoin (pjoin w ".tox") "4"))
        | none =>
          match loadCore fuel cs "tox_root" with
          | Except.ok (CoreValue.path root) =>
              Except.ok (CoreValue.path (pjoin (pjoin root ".tox") "4"))
          | Except.ok (CoreValue.envs _) => Except.error "type error"
          | Except.error e => Except.error e
    | some (CoreDef.dynTempDir _ _) =>
        match loadCore fuel cs "tox_root" with
        | Except.ok (CoreValue.path root) =>
            Except.ok (CoreValue.path (pjoin root ".temp"))
        | Except.ok (CoreValue.envs _) => Except.error "type error"
        | Except.error e => Except.error e

/-- The registration calls of `CoreConfigSet.register_config`
(lines 183-213), in source order, with the source's keys, descriptions and
defaults. -/
def coreRegisterOps (root srcPath : String) : List (List String × CoreDef) :=
  [ (["config_file_path"],
      CoreDef.const ["config_file_path"] "path to the configuration file"
        (CoreValue.path srcPath)),
    (["tox_root", "toxinidir"],
      CoreDef.dynVal ["tox_root", "toxinidir"]
        "the root directory (where the configuration file is found)"
        (CoreValue.path root)),
    (["work_dir", "toxworkdir"],
      CoreDef.dynWorkDir ["work_dir", "toxworkdir"] "working directory"),
    (["temp_dir"],
      CoreDef.dynTempDir ["temp_dir"] "temporary directory cleaned at start"),
    (["env_list", "envlist"],
      CoreDef.dynVal ["env_list", "envlist"]
        "define environments to automatically run" (CoreValue.envs [])) ]

/-- `CoreConfigSet.__init__` (lines 178-181) for a set with no loaders:
store root and source path and run `register_config` under the overriding
duplicate policy. -/
def coreConfigSet (conf : CoreConf) (sec : Section) (root srcPath : String) :
    ConfigSet CoreConf CoreDef :=
  (ConfigSet.init conf sec none).run .core (coreRegisterOps root srcPath)

section DictLemmas

variable {α : Type}

theorem dictFind?_nil (a : String) :
    dictFind? ([] : List (String × α)) a = none := rfl

theorem dictFind?_cons (k : String) (v : α) (rest : List (String × α))
    (a : String) :
    dictFind? ((k, v) :: rest) a =
      if k = a then some v else dictFind? rest a := rfl

theorem dictFind?_map_update (d : List (String × α)) (key a : String)
    (v : α) :
    dictFind? (d.map (fun p => if p.1 = key then (key, v) else p)) a =
      if a = key then (dictFind? d key).map (fun _ => v)
      else dictFind? d a := by
  induction d with
  | nil =>
    by_cases hak : a = key <;> simp [dictFind?_nil, hak]
  | cons p rest ih =>
    rcases p with ⟨k1, v1⟩
    simp only [List.map_cons]
    by_cases hk1 : k1 = key
    · subst hk1
      rw [show (if (k1, v1).1 = k1 then (k1, v) else (k1, v1)) = (k1, v)
          from if_pos rfl]
      by_cases hk1a : k1 = a
      · subst hk1a
        simp [dictFind?_cons]
      · have hak : ¬ a = k1 := fun h => hk1a h.symm
        simp only [dictFind?_cons, if_neg hk1a, ih, if_neg hak]
    · rw [show (if (k1, v1).1 = key then (key, v) else (k1, v1)) = (k1, v1)
          from if_neg hk1]
      by_cases hk1a : k1 = a
      · subst hk1a
        simp [dictFind?_cons, hk1]
      · simp only [dictFind?_cons, if_neg hk1a, if_neg hk1, ih]

theorem dictFind?_append (d d2 : List (String × α)) (a : String) :
    dictFind? (d ++ d2) a =
      match dictFind? d a with
      | some v => some v
      | none => dictFind? d2 a := by
  induction d with
  | nil => simp [dictFind?_nil]
  | cons p rest ih =>
    rcases p with ⟨k1, v1⟩
    by_cases hk1a : k1 = a <;>
      simp only [List.cons_append, dictFind?_cons, if_pos, if_neg, hk1a,
        if_true, if_false, ih]

theorem dictFind?_dictInsert (d : List (String × α)) (key a : String)
    (v : α) :
    dictFind? (dictInsert d key v) a =
      if a = key then some v else dictFind? d a := by
  unfold dictInsert
  by_cases hmem : dictContains d key
  · simp only [hmem, if_true, dictFind?_map_update]
    by_cases hak : a = key
    · rcases Option.isSome_iff_exists.mp hmem with ⟨w, hw⟩
      simp [hak, hw]
    · simp [hak]
  · simp only [Bool.not_eq_true] at hmem
    simp only [hmem, Bool.false_eq_true, if_false, dictFind?_append]
    have hnone : dictFind? d key = none := by
      unfold dictContains at hmem
      exact Option.not_isSome_iff_eq_none.mp (by simp [hmem])
    by_cases hak : a = key
    · subst hak
      simp [hnone, dictFind?_cons]
    · have hka : ¬ key = a := fun h => hak h.symm
      cases hfa : dictFind? d a <;>
        simp [hfa, dictFind?_cons, dictFind?_nil, hka, hak]

theorem dictFind?_foldl_insert (ks : List String) (d : List (String × α))
    (v : α) (a : String) :
    dictFind? (ks.foldl (fun m i => dictInsert m i v) d) a =
      if a ∈ ks then some v else dictFind? d a := by
  induction ks generalizing d with
  | nil => simp
  | cons x rest ih =>
    simp only [List.foldl_cons]
    rw [ih]
    by_cases hmem : a ∈ rest
    · simp [hmem]
    · by_cases hax : a = x
      · subst hax
        simp [hmem, dictFind?_dictInsert]
      · simp [hmem, hax, dictFind?_dictInsert]

theorem dictContains_foldl_insert (ks : List String) (d : List (String × α))
    (v : α) (a : String) :
    dictContains (ks.foldl (fun m i => dictInsert m i v) d) a =
      (ks.contains a || dictContains d a) := by
  simp only [dictContains, dictFind?_foldl_insert]
  by_cases hmem : a ∈ ks
  · simp [hmem]
  · simp [hmem]

end DictLemmas

/-- **C1.** Under the default duplicate policy, re-registering a key that
already has a definition raises the duplicate-key `ValueError` when the new
definition differs from the stored one, and is accepted as a no-op returning
the very same registry state (definitions, alias map and key order all
unchanged) when they are equal. -/
theorem claim_C1_default_duplicate_policy {C D : Type} [DecidableEq D]
    (cs : ConfigSet C D) (k : String) (tl : List String) (d earlier : D)
    (hreg : dictFind? cs.defined k = some earlier) :
    (d ≠ earlier →
      cs.addConf .base (k :: tl) d =
        Except.error ("config " ++ k ++ " already defined")) ∧
    (d = earlier → cs.addConf .base (k :: tl) d = Except.ok (cs, d)) := by
  constructor
  · intro hne
    simp [ConfigSet.addConf, hreg, onDuplicateConf, hne]
  · intro heq
    simp [ConfigSet.addConf, hreg, onDuplicateConf, heq]

/-- Witness for C1 at a concrete registry: key `"a"` registered with `0`;
re-registering with `1` errors, re-registering with `0` is a no-op. -/
theorem claim_C1_default_duplicate_policy_witness :
    ConfigSet.addConf .base
        (⟨(), ⟨"tox"⟩, none, [], [("a", (0 : Nat))], ["a"], [("a", "a")]⟩ :
          ConfigSet Unit Nat) ["a"] 1 =
      Except.error ("config " ++ "a" ++ " already defined") ∧
    ConfigSet.addConf .base
        (⟨(), ⟨"tox"⟩, none, [], [("a", (0 : Nat))], ["a"], [("a", "a")]⟩ :
          ConfigSet Unit Nat) ["a"] 0 =
      Except.ok
        (⟨(), ⟨"tox"⟩, none, [], [("a", (0 : Nat))], ["a"], [("a", "a")]⟩, 0) :=
  ⟨(claim_C1_default_duplicate_policy _ "a" [] 1 0 (by decide)).1 (by decide),
   (claim_C1_default_duplicate_policy _ "a" [] 0 0 (by decide)).2 rfl⟩

/-- **C6.** Under the overriding (core) duplicate policy, re-registering an
already-present key always succeeds silently, the state is returned
unchanged (so the first registration wins), and a later lookup of the key
still invokes the originally registered definition. -/
theorem claim_C6_core_duplicate_policy {C D : Type} [DecidableEq D]
    (cs : ConfigSet C D) (k : String) (tl : List String) (d earlier : D)
    (hreg : dictFind? cs.defined k = some earlier) :
    cs.addConf .core (k :: tl) d = Except.ok (cs, d) ∧
    (∀ (V : Type) (callDef : D → C → List Loader → ConfigLoadArgs → V)
        (chain : Option (List String)),
      cs.load callDef k chain =
        Except.ok (callDef earlier cs.conf cs.loaders
          (ConfigLoadArgs.make chain cs.name cs.envName))) := by
  constructor
  · simp [ConfigSet.addConf, hreg, onDuplicateConf]
  · intro V callDef chain
    simp [ConfigSet.load, hreg]

/-- Witness for C6: key `"tox_root"` registered with `0`; re-registering
with the different definition `7` still succeeds and lookup yields `0`. -/
theorem claim_C6_core_duplicate_policy_witness :
    ConfigSet.addConf .core
        (⟨(), ⟨"tox"⟩, none, [], [("tox_root", (0 : Nat))], ["tox_root"],
          [("tox_root", "tox_root")]⟩ : ConfigSet Unit Nat) ["tox_root"] 7 =
      Except.ok
        (⟨(), ⟨"tox"⟩, none, [], [("tox_root", (0 : Nat))], ["tox_root"],
          [("tox_root", "tox_root")]⟩, 7) ∧
    ConfigSet.load (fun d _ _ _ => d)
        (⟨(), ⟨"tox"⟩, none, [], [("tox_root", (0 : Nat))], ["tox_root"],
          [("tox_root", "tox_root")]⟩ : ConfigSet Unit Nat) "tox_root" none =
      Except.ok 0 :=
  ⟨(claim_C6_core_duplicate_policy _ "tox_root" [] 7 0 (by decide)).1,
   (claim_C6_core_duplicate_policy _ "tox_root" [] 7 0 (by decide)).2
      Nat (fun d _ _ _ => d) none⟩

theorem ConfigSet.step_nil {C D : Type} [DecidableEq D] (p : DupPolicy)
    (cs : ConfigSet C D) (d : D) : cs.step p ([], d) = cs := by
  simp [ConfigSet.step, ConfigSet.addConf]

theorem ConfigSet.step_dup {C D : Type} [DecidableEq D] (p : DupPolicy)
    (cs : ConfigSet C D) (k : String) (tl : List String) (d : D)
    (h : dictContains cs.defined k = true) : cs.step p (k :: tl, d) = cs := by
  rcases Option.isSome_iff_exists.mp h with ⟨earlier, he⟩
  simp only [ConfigSet.step, ConfigSet.addConf, he]
  cases hd : onDuplicateConf p k earlier d with
  | error e => simp
  | ok u => cases u; simp

theorem ConfigSet.step_fresh {C D : Type} [DecidableEq D] (p : DupPolicy)
    (cs : ConfigSet C D) (k : String) (tl : List String) (d : D)
    (h : dictFind? cs.defined k = none) :
    cs.step p (k :: tl, d) =
      { cs with
          keys := keysInsert cs.keys k,
          aliasMap := (k :: tl).foldl (fun a item => dictInsert a item k)
            cs.aliasMap,
          defined := (k :: tl).foldl (fun m i => dictInsert m i d)
            cs.defined } := by
  simp [ConfigSet.step, ConfigSet.addConf, h]

theorem ConfigSet.run_nil {C D : Type} [DecidableEq D] (p : DupPolicy)
    (cs : ConfigSet C D) : cs.run p [] = cs := rfl

theorem ConfigSet.run_cons {C D : Type} [DecidableEq D] (p : DupPolicy)
    (cs : ConfigSet C D) (op : List String × D)
    (rest : List (List String × D)) :
    cs.run p (op :: rest) = (cs.step p op).run p rest := rfl

theorem regInv_init {C D : Type} (conf : C) (sec : Section)
    (env : Option String) : RegInv (ConfigSet.init (D := D) conf sec env) := by
  refine ⟨?_, ?_, ?_⟩
  · intro a k h
    simp [ConfigSet.init, dictFind?_nil] at h
  · intro k
    simp [ConfigSet.init, dictFind?_nil]
  · simp [ConfigSet.init]

theorem regInv_step {C D : Type} [DecidableEq D] (p : DupPolicy)
    (cs : ConfigSet C D) (ks : List String) (d : D) (hinv : RegInv cs)
    (hsafe : ∀ k tl, ks = k :: tl →
      dictContains cs.defined k = true ∨
        ∀ a ∈ ks, dictContains cs.defined a = false) :
    RegInv (cs.step p (ks, d)) := by
  match ks with
  | [] => rw [ConfigSet.step_nil]; exact hinv
  | k :: tl =>
    rcases hsafe k tl rfl with hdup | hfresh
    · rw [ConfigSet.step_dup p cs k tl d hdup]; exact hinv
    · have hk : dictFind? cs.defined k = none := by
        have := hfresh k (by simp)
        unfold dictContains at this
        exact Option.not_isSome_iff_eq_none.mp (by simp [this])
      rw [ConfigSet.step_fresh p cs k tl d hk]
      obtain ⟨inv1, inv2, inv3⟩ := hinv
      have hknotin : k ∉ cs.keys := by
        intro hmem
        have halias := (inv2 k).mp hmem
        obtain ⟨d0, hda, hdk⟩ := inv1 k k halias
        rw [hk] at hda
        exact Option.noConfusion hda
      have hkeysIns : keysInsert cs.keys k = cs.keys ++ [k] := by
        unfold keysInsert
        simp [hknotin]
      have holdNotIn : ∀ a, dictContains cs.defined a = true →
          a ∉ (k :: tl) := by
        intro a ha hmem
        rw [hfresh a hmem] at ha
        exact Bool.noConfusion ha
      refine ⟨?_, ?_, ?_⟩
      · intro a k' hfind
        simp only [dictFind?_foldl_insert] at hfind ⊢
        by_cases hmem : a ∈ (k :: tl)
        · rw [if_pos hmem] at hfind
          cases hfind
          refine ⟨d, ?_, ?_⟩
          · rw [if_pos hmem]
          · rw [if_pos (by simp)]
        · rw [if_neg hmem] at hfind
          obtain ⟨d0, hda, hdk'⟩ := inv1 a k' hfind
          have hk'notin : k' ∉ (k :: tl) := by
            apply holdNotIn
            unfold dictContains
            simp [hdk']
          refine ⟨d0, ?_, ?_⟩
          · rw [if_neg hmem]; exact hda
          · rw [if_neg hk'notin]; exact hdk'
      · intro k''
        rw [hkeysIns]
        simp only [dictFind?_foldl_insert, List.mem_append,
          List.mem_singleton]
        constructor
        · rintro (hmem | rfl)
          · have halias := (inv2 k'').mp hmem
            obtain ⟨d0, hda, _⟩ := inv1 k'' k'' halias
            have hnotin : k'' ∉ (k :: tl) := by
              apply holdNotIn
              unfold dictContains
              simp [hda]
            rw [if_neg hnotin]
            exact halias
          · rw [if_pos (by simp)]
        · intro hfind
          by_cases hmem : k'' ∈ (k :: tl)
          · rw [if_pos hmem] at hfind
            cases hfind
            right; rfl
          · rw [if_neg hmem] at hfind
            left
            exact (inv2 k'').mpr hfind
      · rw [hkeysIns]
        simp [List.nodup_append, inv3, hknotin]

theorem keysDefined_step {C D : Type} [DecidableEq D] (p : DupPolicy)
    (cs : ConfigSet C D) (op : List String × D) (h : KeysDefined cs) :
    KeysDefined (cs.step p op) := by
  rcases op with ⟨ks, d⟩
  match ks with
  | [] => rw [ConfigSet.step_nil]; exact h
  | k :: tl =>
    cases hc : dictContains cs.defined k with
    | true => rw [ConfigSet.step_dup p cs k tl d hc]; exact h
    | false =>
      have hk : dictFind? cs.defined k = none := by
        unfold dictContains at hc
        exact Option.not_isSome_iff_eq_none.mp (by simp [hc])
      rw [ConfigSet.step_fresh p cs k tl d hk]
      intro k' hk'
      simp only [dictContains_foldl_insert]
      unfold keysInsert at hk'
      by_cases hmem : cs.keys.contains k
      · rw [if_pos hmem] at hk'
        simp [h k' hk']
      · rw [if_neg hmem] at hk'
        rcases List.mem_append.mp hk' with hold | hnew
        · simp [h k' hold]
        · simp at hnew
          subst hnew
          simp

theorem run_keys_spec {C D : Type} [DecidableEq D] (p : DupPolicy)
    (ops : List (List String × D)) :
    ∀ cs : ConfigSet C D, KeysDefined cs →
      (cs.run p ops).keys = cs.keys ++ primariesOf p cs ops ∧
      (cs.keys.Nodup → (cs.run p ops).keys.Nodup) := by
  induction ops with
  | nil =>
    intro cs _
    simp [ConfigSet.run_nil, primariesOf]
  | cons op rest ih =>
    intro cs hkd
    rcases op with ⟨ks, d⟩
    rw [ConfigSet.run_cons]
    have hkd' : KeysDefined (cs.step p (ks, d)) :=
      keysDefined_step p cs (ks, d) hkd
    obtain ⟨iheq, ihnd⟩ := ih (cs.step p (ks, d)) hkd'
    match ks with
    | [] =>
      rw [ConfigSet.step_nil] at iheq ihnd hkd' ⊢
      refine ⟨?_, ihnd⟩
      rw [iheq]
      simp [primariesOf, ConfigSet.step_nil]
    | k :: tl =>
      cases hc : dictContains cs.defined k with
      | true =>
        rw [ConfigSet.step_dup p cs k tl d hc] at iheq ihnd hkd' ⊢
        refine ⟨?_, ihnd⟩
        rw [iheq]
        simp [primariesOf, hc, ConfigSet.step_dup p cs k tl d hc]
      | false =>
        have hk : dictFind? cs.defined k = none := by
          unfold dictContains at hc
          exact Option.not_isSome_iff_eq_none.mp (by simp [hc])
        have hknotin : k ∉ cs.keys := by
          intro hmem
          rw [hkd k hmem] at hc
          exact Bool.noConfusion hc
        have hstepkeys : (cs.step p (k :: tl, d)).keys = cs.keys ++ [k] := by
          rw [ConfigSet.step_fresh p cs k tl d hk]
          unfold keysInsert
          rw [if_neg (fun hcontra => hknotin (List.elem_iff.mp hcontra))]
        constructor
        · rw [iheq, hstepkeys]
          simp [primariesOf, hc, List.append_assoc]
        · intro hnd
          apply ihnd
          rw [hstepkeys]
          simp [List.nodup_append, hnd, hknotin]

/-- **C3.** Starting from a fresh registry, after any sequence of
registration calls `iterate()` (the `_keys` dict) yields exactly the primary
keys of the calls that performed a first registration, in call order, with no
duplicates; aliases and accepted re-registrations add nothing. -/
theorem claim_C3_iteration_order {C D : Type} [DecidableEq D] (p : DupPolicy)
    (conf : C) (sec : Section) (env : Option String)
    (ops : List (List String × D)) :
    ((ConfigSet.init conf sec env).run p ops).keys =
      primariesOf p (ConfigSet.init conf sec env) ops ∧
    ((ConfigSet.init conf sec env).run p ops).keys.Nodup := by
  have hkd : KeysDefined (ConfigSet.init (D := D) conf sec env) := by
    intro k hk
    simp [ConfigSet.init] at hk
  obtain ⟨heq, hnd⟩ := run_keys_spec p ops (ConfigSet.init conf sec env) hkd
  refine ⟨?_, hnd (by simp [ConfigSet.init])⟩
  rw [heq]
  simp [ConfigSet.init]

theorem run_aliasMap_contains {C D : Type} [DecidableEq D] (p : DupPolicy)
    (ops : List (List String × D)) :
    ∀ (cs : ConfigSet C D) (s : String),
      dictContains (cs.run p ops).aliasMap s = true ↔
        (s ∈ acceptedAliases p cs ops ∨
          dictContains cs.aliasMap s = true) := by
  induction ops with
  | nil =>
    intro cs s
    simp [ConfigSet.run_nil, acceptedAliases]
  | cons op rest ih =>
    intro cs s
    rcases op with ⟨ks, d⟩
    rw [ConfigSet.run_cons]
    match ks with
    | [] =>
      rw [ih (cs.step p ([], d)) s, ConfigSet.step_nil]
      simp [acceptedAliases, ConfigSet.step_nil]
    | k :: tl =>
      cases hc : dictContains cs.defined k with
      | true =>
        rw [ih (cs.step p (k :: tl, d)) s,
          ConfigSet.step_dup p cs k tl d hc]
        simp [acceptedAliases, hc, ConfigSet.step_dup p cs k tl d hc]
      | false =>
        have hk : dictFind? cs.defined k = none := by
          unfold dictContains at hc
          exact Option.not_isSome_iff_eq_none.mp (by simp [hc])
        rw [ih (cs.step p (k :: tl, d)) s]
        rw [ConfigSet.step_fresh p cs k tl d hk]
        simp only [acceptedAliases, hc, Bool.false_eq_true, if_false,
          dictContains_foldl_insert, List.mem_append]
        rw [ConfigSet.step_fresh p cs k tl d hk]
        simp only [Bool.or_eq_true, List.elem_iff]
        tauto

/-- **C7 (amended).** `contains` is true exactly for the strings that were
passed as aliases in a registration call that actually registered (its
primary key not yet defined); aliases supplied in accepted re-registrations
of an existing primary key are not recorded. -/
theorem claim_C7_contains_amended {C D : Type} [DecidableEq D] (p : DupPolicy)
    (conf : C) (sec : Section) (env : Option String)
    (ops : List (List String × D)) (s : String) :
    ((ConfigSet.init conf sec env).run p ops).containsKey s = true ↔
      s ∈ acceptedAliases p (ConfigSet.init conf sec env) ops := by
  unfold ConfigSet.containsKey
  rw [run_aliasMap_contains p ops (ConfigSet.init conf sec env) s]
  simp [ConfigSet.init, dictContains, dictFind?_nil]

/-- **C7 counterexample.** Register `"a"`, then re-register `"a"` with the
extra alias `"b"` and an equal definition (a silent no-op): the claim counts
`"b"` as passed, but `contains "b"` is false — the duplicate branch never
extends the alias map. -/
theorem claim_C7_counterexample :
    ¬ (ConfigSet.containsKey
          ((ConfigSet.init () ⟨"tox"⟩ none : ConfigSet Unit Nat).run .base
            [(["a"], 0), (["a", "b"], 0)]) "b" = true ↔
        "b" ∈ aliasesPassed [(["a"], (0 : Nat)), (["a", "b"], 0)]) := by
  decide

/-- **C5 counterexample.** The claim fails as stated: register `"a"`, then
register primary `"b"` with the extra alias `"a"`.  The alias map now sends
`"a"` to `"b"`, yet `"a"` is still in the primary-key order, so `_keys` is
not the set of self-mapping aliases. -/
theorem claim_C5_counterexample :
    ¬ RegInv ((ConfigSet.init () ⟨"tox"⟩ none : ConfigSet Unit Nat).run .base
        [(["a"], 0), (["b", "a"], 1)]) := by
  intro h
  have ha := (h.2.1 "a").mp (by decide)
  exact absurd ha (by decide)

theorem regInv_run {C D : Type} [DecidableEq D] (p : DupPolicy)
    (ops : List (List String × D)) :
    ∀ cs : ConfigSet C D, RegInv cs → SafeOps p cs ops = true →
      RegInv (cs.run p ops) := by
  induction ops with
  | nil =>
    intro cs hinv _
    rw [ConfigSet.run_nil]
    exact hinv
  | cons op rest ih =>
    intro cs hinv hsafe
    rcases op with ⟨ks, d⟩
    rw [ConfigSet.run_cons]
    match ks with
    | [] =>
      exact ih _ (regInv_step p cs [] d hinv (by intro k tl h; cases h))
        (by simpa [SafeOps] using hsafe)
    | k :: tl =>
      simp only [SafeOps, Bool.and_eq_true] at hsafe
      obtain ⟨hcond, hrest⟩ := hsafe
      apply ih _ (regInv_step p cs (k :: tl) d hinv ?_) hrest
      intro k' tl' heq
      cases heq
      rcases Bool.or_eq_true _ _ |>.mp hcond with hdup | hall
      · exact Or.inl hdup
      · right
        intro a ha
        have := List.all_eq_true.mp hall a ha
        simpa using this

/-- **C5 (amended).** The registry invariants (aliases resolve in
`_defined` to their primary key's definition; `_keys` is exactly the
duplicate-free list of self-mapping aliases) hold after any sequence of
registration calls in which every call that registers (primary key not yet
defined) only uses alias strings that are not yet defined either.  Without
that restriction the invariants fail (see the counterexample). -/
theorem claim_C5_invariants_amended {C D : Type} [DecidableEq D]
    (p : DupPolicy) (conf : C) (sec : Section) (env : Option String)
    (ops : List (List String × D))
    (hsafe : SafeOps p (ConfigSet.init conf sec env) ops = true) :
    RegInv ((ConfigSet.init conf sec env).run p ops) :=
  regInv_run p ops (ConfigSet.init conf sec env)
    (regInv_init conf sec env) hsafe

/-- Witness for the amended C5 at a concrete safe sequence: a two-alias
registration followed by a duplicate re-registration. -/
theorem claim_C5_invariants_amended_witness :
    SafeOps .base (ConfigSet.init () ⟨"tox"⟩ none : ConfigSet Unit Nat)
        [(["set_env", "setenv"], 0), (["set_env"], 0)] = true ∧
    RegInv ((ConfigSet.init () ⟨"tox"⟩ none : ConfigSet Unit Nat).run .base
        [(["set_env", "setenv"], 0), (["set_env"], 0)]) :=
  ⟨by decide,
   claim_C5_invariants_amended .base () ⟨"tox"⟩ none
     [(["set_env", "setenv"], 0), (["set_env"], 0)] (by decide)⟩

/-- **C4 (amended).** A registration that actually registers (its primary
key was not yet defined) maps, immediately afterwards, every alias of the
declaration to the first key of the list, both in `primary_key` and through
`_defined`; in particular `load` produces the same invocation for any two
aliases of the declaration, whatever the definition (so in particular for a
constant one).  For an accepted re-registration of an existing primary key
the new aliases are not mapped at all (see the counterexample). -/
theorem claim_C4_alias_consistency {C D : Type} [DecidableEq D]
    (p : DupPolicy) (cs cs' : ConfigSet C D) (k : String) (tl : List String)
    (d r : D) (hfresh : dictFind? cs.defined k = none)
    (hok : cs.addConf p (k :: tl) d = Except.ok (cs', r)) :
    ∀ a1 ∈ k :: tl, ∀ a2 ∈ k :: tl,
      cs'.primaryKey a1 = Except.ok k ∧
      cs'.primaryKey a2 = Except.ok k ∧
      (∀ (V : Type) (callDef : D → C → List Loader → ConfigLoadArgs → V)
          (chain : Option (List String)),
        cs'.load callDef a1 chain = cs'.load callDef a2 chain) := by
  simp only [ConfigSet.addConf, hfresh] at hok
  injection hok with hpair
  injection hpair with hcs hr
  subst hcs
  intro a1 ha1 a2 ha2
  have halias1 : dictFind?
      ((k :: tl).foldl (fun a item => dictInsert a item k) cs.aliasMap) a1 =
      some k := by
    rw [dictFind?_foldl_insert]; exact if_pos ha1
  have halias2 : dictFind?
      ((k :: tl).foldl (fun a item => dictInsert a item k) cs.aliasMap) a2 =
      some k := by
    rw [dictFind?_foldl_insert]; exact if_pos ha2
  have hdef1 : dictFind?
      ((k :: tl).foldl (fun m i => dictInsert m i d) cs.defined) a1 =
      some d := by
    rw [dictFind?_foldl_insert]; exact if_pos ha1
  have hdef2 : dictFind?
      ((k :: tl).foldl (fun m i => dictInsert m i d) cs.defined) a2 =
      some d := by
    rw [dictFind?_foldl_insert]; exact if_pos ha2
  refine ⟨?_, ?_, ?_⟩
  · simp only [ConfigSet.primaryKey, halias1]
  · simp only [ConfigSet.primaryKey, halias2]
  · intro V callDef chain
    simp only [ConfigSet.load, hdef1, hdef2]

/-- Witness for C4: registering `["env_list", "envlist"]` on an empty
registry; both aliases share the primary key and resolve identically. -/
theorem claim_C4_alias_consistency_witness :
    ConfigSet.primaryKey
        ((ConfigSet.init () ⟨"tox"⟩ none : ConfigSet Unit Nat).step .base
          (["env_list", "envlist"], 3)) "envlist" = Except.ok "env_list" ∧
    ConfigSet.load (fun d _ _ _ => d)
        ((ConfigSet.init () ⟨"tox"⟩ none : ConfigSet Unit Nat).step .base
          (["env_list", "envlist"], 3)) "env_list" none =
      ConfigSet.load (fun d _ _ _ => d)
        ((ConfigSet.init () ⟨"tox"⟩ none : ConfigSet Unit Nat).step .base
          (["env_list", "envlist"], 3)) "envlist" none := by
  have h := claim_C4_alias_consistency .base
    (ConfigSet.init () ⟨"tox"⟩ none : ConfigSet Unit Nat) _ "env_list"
    ["envlist"] 3 3 (by decide) rfl "env_list" (by decide) "envlist"
    (by decide)
  exact ⟨h.2.1, h.2.2 Nat (fun d _ _ _ => d) none⟩

theorem addConf_ok_spec {C D : Type} [DecidableEq D] (p : DupPolicy)
    (cs cs' : ConfigSet C D) (ks : List String) (d r : D)
    (hok : cs.addConf p ks d = Except.ok (cs', r)) :
    r = d ∧
    (∀ k tl, ks = k :: tl → dictContains cs.defined k = true →
      cs' = cs) := by
  match ks with
  | [] => simp [ConfigSet.addConf] at hok
  | k :: tl =>
    cases hfind : dictFind? cs.defined k with
    | some earlier =>
      simp only [ConfigSet.addConf, hfind] at hok
      cases hd : onDuplicateConf p k earlier d with
      | error e =>
        simp only [hd] at hok
        exact Except.noConfusion hok
      | ok u =>
        cases u
        simp only [hd] at hok
        injection hok with hpair
        injection hpair with h1 h2
        exact ⟨h2.symm, fun _ _ _ _ => h1.symm⟩
    | none =>
      simp only [ConfigSet.addConf, hfind] at hok
      injection hok with hpair
      injection hpair with h1 h2
      refine ⟨h2.symm, ?_⟩
      intro k' tl' heq hcont
      injection heq with hk _
      subst hk
      unfold dictContains at hcont
      rw [hfind] at hcont
      simp at hcont

/-- **C10.** An `add_constant` call that returns (is accepted) returns the
definition newly built from that very call's arguments; when the primary key
was already registered and the duplicate policy kept the first registration,
the registry is unchanged, so later lookups still find the earlier
definition, not the returned one. -/
theorem claim_C10_returns_new_definition {C V : Type} [DecidableEq V]
    (p : DupPolicy) (cs cs' : ConfigSet C (ConfigConstantDefinition V))
    (keys : Sum String (List String)) (desc : String) (value : V)
    (r : ConfigConstantDefinition V)
    (hok : cs.addConstant p keys desc value = Except.ok (cs', r)) :
    r = ConfigConstantDefinition.mk (makeKeys keys) desc value ∧
    (∀ k tl d0, makeKeys keys = k :: tl →
      dictFind? cs.defined k = some d0 →
      dictFind? cs'.defined k = some d0) := by
  unfold ConfigSet.addConstant at hok
  obtain ⟨hret, hdup⟩ := addConf_ok_spec p cs cs' (makeKeys keys)
    (ConfigConstantDefinition.mk (makeKeys keys) desc value) r hok
  refine ⟨hret, ?_⟩
  intro k tl d0 heq hfind
  have hcs : cs' = cs := by
    apply hdup k tl heq
    unfold dictContains
    rw [hfind]
    rfl
  rw [hcs]
  exact hfind

/-- Witness for C10: re-registering constant `"a"` under the core policy
with different arguments; the call returns the new definition while the
stored one stays the original. -/
theorem claim_C10_returns_new_definition_witness :
    ConfigSet.addConstant .core
        (⟨(), ⟨"tox"⟩, none, [],
          [("a", ⟨["a"], "d", (0 : Nat)⟩)], ["a"], [("a", "a")]⟩ :
          ConfigSet Unit (ConfigConstantDefinition Nat))
        (Sum.inl "a") "d2" 1 =
      Except.ok
        (⟨(), ⟨"tox"⟩, none, [],
          [("a", ⟨["a"], "d", (0 : Nat)⟩)], ["a"], [("a", "a")]⟩,
         ⟨["a"], "d2", 1⟩) ∧
    (⟨["a"], "d2", (1 : Nat)⟩ : ConfigConstantDefinition Nat) =
      ConfigConstantDefinition.mk (makeKeys (Sum.inl "a")) "d2" 1 ∧
    dictFind?
        (⟨(), ⟨"tox"⟩, none, [],
          [("a", ⟨["a"], "d", (0 : Nat)⟩)], ["a"], [("a", "a")]⟩ :
          ConfigSet Unit (ConfigConstantDefinition Nat)).defined "a" =
      some ⟨["a"], "d", 0⟩ := by
  have h := claim_C10_returns_new_definition .core
    (⟨(), ⟨"tox"⟩, none, [],
      [("a", ⟨["a"], "d", (0 : Nat)⟩)], ["a"], [("a", "a")]⟩ :
      ConfigSet Unit (ConfigConstantDefinition Nat))
    (⟨(), ⟨"tox"⟩, none, [],
      [("a", ⟨["a"], "d", (0 : Nat)⟩)], ["a"], [("a", "a")]⟩)
    (Sum.inl "a") "d2" 1 ⟨["a"], "d2", 1⟩ rfl
  exact ⟨rfl, h.1, h.2 "a" [] ⟨["a"], "d", 0⟩ rfl rfl⟩

/-- **C8.** `load` looks the raw alias up in `_defined`: an unregistered key
raises `KeyError` (no default is returned); a registered key's definition is
invoked, once, with the context built from the supplied chain, the section
name and the environment name, and its result is returned unchanged — the
registry keeps no cache (`load` neither reads nor writes any state beyond
the lookup, as its type shows). -/
theorem claim_C8_load_resolution {C D V : Type}
    (callDef : D → C → List Loader → ConfigLoadArgs → V)
    (cs : ConfigSet C D) (item : String) (chain : Option (List String)) :
    (dictFind? cs.defined item = none →
      cs.load callDef item chain =
        Except.error ("KeyError: " ++ item)) ∧
    (∀ d, dictFind? cs.defined item = some d →
      cs.load callDef item chain =
        Except.ok (callDef d cs.conf cs.loaders
          { chain := chain.getD [], name := cs.sec.name,
            envName := cs.envName })) := by
  constructor
  · intro h
    simp [ConfigSet.load, h]
  · intro d h
    simp [ConfigSet.load, h, ConfigLoadArgs.make, ConfigSet.name]

/-- Witness for C8 on a concrete registry: the registered key resolves by
invoking the definition on the exact context; the unregistered one errors. -/
theorem claim_C8_load_resolution_witness :
    dictFind?
        (⟨(), ⟨"testenv"⟩, some "py39", [], [("deps", (5 : Nat))], ["deps"],
          [("deps", "deps")]⟩ : ConfigSet Unit Nat).defined "deps" =
      some 5 ∧
    ConfigSet.load (fun d _ _ args => (d, args.chain, args.name))
        (⟨(), ⟨"testenv"⟩, some "py39", [], [("deps", (5 : Nat))], ["deps"],
          [("deps", "deps")]⟩ : ConfigSet Unit Nat)
        "deps" (some ["other"]) =
      Except.ok (5, ["other"], "testenv") ∧
    dictFind?
        (⟨(), ⟨"testenv"⟩, some "py39", [], [("deps", (5 : Nat))], ["deps"],
          [("deps", "deps")]⟩ : ConfigSet Unit Nat).defined "foo" = none ∧
    ConfigSet.load (fun d _ _ args => (d, args.chain, args.name))
        (⟨(), ⟨"testenv"⟩, some "py39", [], [("deps", (5 : Nat))], ["deps"],
          [("deps", "deps")]⟩ : ConfigSet Unit Nat)
        "foo" (some ["other"]) =
      Except.error ("KeyError: " ++ "foo") := by
  refine ⟨by decide, ?_, by decide, ?_⟩
  · exact (claim_C8_load_resolution (fun d _ _ args => (d, args.chain, args.name))
      (⟨(), ⟨"testenv"⟩, some "py39", [], [("deps", (5 : Nat))], ["deps"],
        [("deps", "deps")]⟩ : ConfigSet Unit Nat)
      "deps" (some ["other"])).2 5 (by decide)
  · exact (claim_C8_load_resolution (fun d _ _ args => (d, args.chain, args.name))
      (⟨(), ⟨"testenv"⟩, some "py39", [], [("deps", (5 : Nat))], ["deps"],
        [("deps", "deps")]⟩ : ConfigSet Unit Nat)
      "foo" (some ["other"])).1 (by decide)

theorem mem_insertAbsent (l : List String) (x a : String) :
    a ∈ insertAbsent l x ↔ a ∈ l ∨ a = x := by
  unfold insertAbsent
  by_cases h : x ∈ l
  · rw [if_pos h]
    constructor
    · exact Or.inl
    · rintro (h1 | rfl)
      · exact h1
      · exact h
  · rw [if_neg h]
    simp [List.mem_append]

theorem nodup_insertAbsent (l : List String) (x : String) (h : l.Nodup) :
    (insertAbsent l x).Nodup := by
  unfold insertAbsent
  by_cases hx : x ∈ l
  · rw [if_pos hx]; exact h
  · rw [if_neg hx]; simp [List.nodup_append, h, hx]

theorem mem_foldl_insertAbsent (ks : List String) :
    ∀ (acc : List String) (a : String),
      a ∈ ks.foldl insertAbsent acc ↔ a ∈ acc ∨ a ∈ ks := by
  induction ks with
  | nil => intro acc a; simp
  | cons x rest ih =>
    intro acc a
    simp only [List.foldl_cons]
    rw [ih, mem_insertAbsent]
    simp only [List.mem_cons]
    tauto

theorem nodup_foldl_insertAbsent (ks : List String) :
    ∀ acc : List String, acc.Nodup →
      (ks.foldl insertAbsent acc).Nodup := by
  induction ks with
  | nil => intro acc h; exact h
  | cons x rest ih =>
    intro acc h
    exact ih _ (nodup_insertAbsent acc x h)

theorem mem_foundFold (loaders : List Loader) (parents : List Nat) :
    ∀ (acc : List String) (a : String),
      a ∈ loaders.foldl
          (fun acc ld =>
            if parents.contains ld.lid then acc
            else ld.foundKeysL.foldl insertAbsent acc) acc ↔
        a ∈ acc ∨ ∃ ld, ld ∈ loaders ∧ parents.contains ld.lid = false ∧
          a ∈ ld.foundKeysL := by
  induction loaders with
  | nil => intro acc a; simp
  | cons ld rest ih =>
    intro acc a
    simp only [List.foldl_cons]
    cases hpar : parents.contains ld.lid with
    | true =>
      simp only [hpar, if_true]
      rw [ih]
      constructor
      · rintro (h | ⟨ld', hmem, hc, hk⟩)
        · exact Or.inl h
        · exact Or.inr ⟨ld', List.mem_cons_of_mem _ hmem, hc, hk⟩
      · rintro (h | ⟨ld', hmem, hc, hk⟩)
        · exact Or.inl h
        · rcases List.mem_cons.mp hmem with rfl | hmem'
          · rw [hpar] at hc; exact Bool.noConfusion hc
          · exact Or.inr ⟨ld', hmem', hc, hk⟩
    | false =>
      simp only [hpar, Bool.false_eq_true, if_false]
      rw [ih]
      constructor
      · rintro (h | ⟨ld', hmem, hc, hk⟩)
        · rcases (mem_foldl_insertAbsent _ _ _).mp h with hacc | hfk
          · exact Or.inl hacc
          · exact Or.inr ⟨ld, List.mem_cons_self _ _, hpar, hfk⟩
        · exact Or.inr ⟨ld', List.mem_cons_of_mem _ hmem, hc, hk⟩
      · rintro (h | ⟨ld', hmem, hc, hk⟩)
        · exact Or.inl ((mem_foldl_insertAbsent _ _ _).mpr (Or.inl h))
        · rcases List.mem_cons.mp hmem with rfl | hmem'
          · exact Or.inl ((mem_foldl_insertAbsent _ _ _).mpr (Or.inr hk))
          · exact Or.inr ⟨ld', hmem', hc, hk⟩

theorem nodup_foundFold (loaders : List Loader) (parents : List Nat) :
    ∀ acc : List String, acc.Nodup →
      (loaders.foldl
          (fun acc ld =>
            if parents.contains ld.lid then acc
            else ld.foundKeysL.foldl insertAbsent acc) acc).Nodup := by
  induction loaders with
  | nil => intro acc h; exact h
  | cons ld rest ih =>
    intro acc h
    simp only [List.foldl_cons]
    cases hpar : parents.contains ld.lid with
    | true =>
      simp only [hpar, if_true]
      exact ih _ h
    | false =>
      simp only [hpar, Bool.false_eq_true, if_false]
      exact ih _ (nodup_foldl_insertAbsent _ _ h)

theorem parents_spec (loaders : List Loader) (pid : Nat) :
    (loaders.filterMap Loader.parent).contains pid = true ↔
      ∃ l2, l2 ∈ loaders ∧ l2.parent = some pid := by
  rw [List.elem_iff]
  simp [List.mem_filterMap]

/-- **C2.** `unused()` returns a sorted duplicate-free list whose members are
exactly the keys found by some loader that no loader in the list references
as its parent, minus every key of `_defined` (which includes every alias);
so no registered alias ever appears, and every undeclared found key does. -/
theorem claim_C2_unused_audit {C D : Type} (cs : ConfigSet C D) :
    List.Sorted (· ≤ ·) cs.unused ∧ cs.unused.Nodup ∧
    (∀ x, x ∈ cs.unused ↔
      ((∃ ld, ld ∈ cs.loaders ∧
          (∀ l2, l2 ∈ cs.loaders → l2.parent ≠ some ld.lid) ∧
          x ∈ ld.foundKeysL) ∧
        dictContains cs.defined x = false)) := by
  unfold ConfigSet.unused
  refine ⟨List.sorted_insertionSort _ _, ?_, ?_⟩
  · exact (List.perm_insertionSort _ _).nodup_iff.mpr
      ((nodup_foundFold _ _ _ (by simp)).filter _)
  · intro x
    rw [(List.perm_insertionSort _ _).mem_iff, List.mem_filter,
      mem_foundFold]
    constructor
    · rintro ⟨h | ⟨ld, hmem, hc, hk⟩, hfilter⟩
      · simp at h
      · refine ⟨⟨ld, hmem, ?_, hk⟩, by simpa using hfilter⟩
        intro l2 hl2 hpeq
        have hcon : (cs.loaders.filterMap Loader.parent).contains ld.lid =
            true := (parents_spec _ _).mpr ⟨l2, hl2, hpeq⟩
        rw [hcon] at hc
        exact Bool.noConfusion hc
    · rintro ⟨⟨ld, hmem, hnp, hk⟩, hnd⟩
      refine ⟨Or.inr ⟨ld, hmem, ?_, hk⟩, by simpa using hnd⟩
      cases hc : (cs.loaders.filterMap Loader.parent).contains ld.lid with
      | false => rfl
      | true =>
        obtain ⟨l2, hl2, hpeq⟩ := (parents_spec _ _).mp hc
        exact absurd hpeq (hnp l2 hl2)

/-- **C9.** For a core registry rooted at `/proj` with source
`/proj/tox.ini`, no loaders and no working-directory override:
`toxinidir` resolves to `/proj`, `toxworkdir` to `/proj/.tox/4`,
`temp_dir` to `/proj/.temp`, and `envlist` to the empty environment list. -/
theorem claim_C9_core_defaults :
    loadCore 2 (coreConfigSet ⟨none⟩ ⟨"tox"⟩ "/proj" "/proj/tox.ini")
        "toxinidir" = Except.ok (CoreValue.path "/proj") ∧
    loadCore 2 (coreConfigSet ⟨none⟩ ⟨"tox"⟩ "/proj" "/proj/tox.ini")
        "toxworkdir" = Except.ok (CoreValue.path "/proj/.tox/4") ∧
    loadCore 2 (coreConfigSet ⟨none⟩ ⟨"tox"⟩ "/proj" "/proj/tox.ini")
        "temp_dir" = Except.ok (CoreValue.path "/proj/.temp") ∧
    loadCore 2 (coreConfigSet ⟨none⟩ ⟨"tox"⟩ "/proj" "/proj/tox.ini")
        "envlist" = Except.ok (CoreValue.envs []) := by
  refine ⟨?_, ?_, ?_, ?_⟩ <;> rfl

/-- **C4 counterexample.** Under the overriding policy (and equally under the
default policy with an equal definition) a re-registration of primary key
`"a"` with alias list `["a", "b"]` is a successful call, yet afterwards
`primary_key "b"` is a `KeyError` rather than equal to
`primary_key "a" = ok "a"`: the duplicate branch maps no aliases. -/
theorem claim_C4_counterexample :
    ConfigSet.addConf .core
        (⟨(), ⟨"tox"⟩, none, [], [("a", (0 : Nat))], ["a"], [("a", "a")]⟩ :
          ConfigSet Unit Nat) ["a", "b"] 0 =
      Except.ok
        (⟨(), ⟨"tox"⟩, none, [], [("a", (0 : Nat))], ["a"], [("a", "a")]⟩,
          0) ∧
    ConfigSet.primaryKey
        (⟨(), ⟨"tox"⟩, none, [], [("a", (0 : Nat))], ["a"], [("a", "a")]⟩ :
          ConfigSet Unit Nat) "a" = Except.ok "a" ∧
    ConfigSet.primaryKey
        (⟨(), ⟨"tox"⟩, none, [], [("a", (0 : Nat))], ["a"], [("a", "a")]⟩ :
          ConfigSet Unit Nat) "b" = Except.error ("KeyError: " ++ "b") ∧
    ConfigSet.primaryKey
        (⟨(), ⟨"tox"⟩, none, [], [("a", (0 : Nat))], ["a"], [("a", "a")]⟩ :
          ConfigSet Unit Nat) "b" ≠
      ConfigSet.primaryKey
        (⟨(), ⟨"tox"⟩, none, [], [("a", (0 : Nat))], ["a"], [("a", "a")]⟩ :
          ConfigSet Unit Nat) "a" := by
  refine ⟨rfl, rfl, rfl, ?_⟩
  intro h
  exact Except.noConfusion h
